import Mathlib

/-!
Verification of the go-sl427 SL427 wire-protocol implementation.

The Go sources are shallowly embedded: bytes are natural numbers (callers of
the Go functions can only supply values < 256, which theorems assume where it
matters), byte slices are `List Nat`, Go's fallible functions return
`Except String`.  Machine-integer truncation is modelled with explicit `% 256`.
-/

namespace SL427

/-- Frame start marker, `types.StartFlag` (0x68). -/
def StartFlag : Nat := 0x68

/-- Frame end marker, `types.EndFlag` (0x16). -/
def EndFlag : Nat := 0x16

/-- Minimum whole-frame length accepted by the decoder, `types.MinFrameLen`. -/
def MinFrameLen : Nat := 7

/-! ## Checksum engine (`PacketCodec.calculateCS`) -/

/-- One shift step of the CRC loop: if the high bit of the 8-bit `crc` is set,
shift left (as a byte) and xor the generator polynomial 0xE4, else just shift. -/
def csShift (crc : Nat) : Nat :=
  if crc &&& 0x80 ≠ 0 then ((crc * 2) % 256) ^^^ 0xE4
  else (crc * 2) % 256

/-- Eight applications of `csShift`, the inner `for i := 0; i < 8; i++` loop. -/
def csShift8 (crc : Nat) : Nat :=
  csShift (csShift (csShift (csShift (csShift (csShift (csShift (csShift crc)))))))

/-- `PacketCodec.calculateCS`: fold each data byte into the running crc
(xor, then eight shift steps) and return the low 7 bits. -/
def calculateCS (data : List Nat) : Nat :=
  (data.foldl (fun crc b => csShift8 (crc ^^^ b)) 0) &&& 0x7F

/-- Modelled from the spec: the checksum pseudocode of §4.2, written as its
own recursion (`crc = 0; for each byte: crc ^= b; repeat 8 shift steps;
result = crc AND 0x7F`), to be compared with the source's `calculateCS`. -/
def specCSAux (crc : Nat) : List Nat → Nat
  | [] => crc
  | b :: rest => specCSAux (csShift8 (crc ^^^ b)) rest

/-- Modelled from the spec: the §4.2 checksum over a region. -/
def specCS (data : List Nat) : Nat :=
  (specCSAux 0 data) &&& 0x7F

/-! ## Frame envelope (`types.Frame`, `codec.PacketCodec`) -/

/-- `types.Header`: the three header bytes. -/
structure Header where
  startFlag1 : Nat
  length : Nat
  startFlag2 : Nat
deriving DecidableEq, Repr

/-- `types.Frame`: the decoded wire envelope. -/
structure Frame where
  head : Header
  userDataRaw : List Nat
  cs : Nat
  endFlag : Nat
deriving DecidableEq, Repr

/-- `PacketCodec.DecodePacket`: validate the envelope and extract the
user-data region. -/
def DecodePacket (data : List Nat) : Except String Frame :=
  if data.length < MinFrameLen then .error "packet too short"
  else if ¬(data.getD 0 0 = StartFlag ∧ data.getD 2 0 = StartFlag) then
    .error "invalid start flag"
  else if data.getD (data.length - 1) 0 ≠ EndFlag then .error "invalid end flag"
  else if data.length ≠ data.getD 1 0 + 5 then .error "invalid packet length"
  else if calculateCS ((data.drop 3).take (data.length - 5)) ≠
      data.getD (data.length - 2) 0 then .error "CS check failed"
  else .ok { head := { startFlag1 := data.getD 0 0, length := data.getD 1 0,
                       startFlag2 := data.getD 2 0 },
             userDataRaw := (data.drop 3).take (data.length - 5),
             cs := data.getD (data.length - 2) 0,
             endFlag := data.getD (data.length - 1) 0 }

/-- `PacketCodec.EncodePacket`: emit header bytes, user data, computed
checksum and end marker.  The Go function returns `([]byte, error)` but never
produces a non-nil error. -/
def EncodePacket (frame : Frame) : Except String (List Nat) :=
  .ok ([frame.head.startFlag1, frame.head.length, frame.head.startFlag2]
        ++ frame.userDataRaw ++ [calculateCS frame.userDataRaw, EndFlag])

/-! ## Stream reader (`packet.Reader.ReadFrame`) -/

/-- The start-marker scan of `ReadFrame` steps 1: consume bytes until a
0x68 is read, returning the stream after that 0x68 (`none` when the stream
ends first). -/
def seekStart : List Nat → Option (List Nat)
  | [] => none
  | b :: rest => if b = StartFlag then some rest else seekStart rest

/-- Steps 2–4 of `Reader.ReadFrame`, after the first 0x68 was consumed:
read the length byte and the second start marker, then read `length + 2`
further bytes. -/
def readAfterStart : List Nat → Except String (List Nat × List Nat)
  | [] => .error "read length failed"
  | [_] => .error "read second start flag failed"
  | length :: startByte2 :: afterStart2 =>
    if startByte2 ≠ StartFlag then .error "invalid second start flag"
    else if afterStart2.length < length + 2 then
      .error "read remaining data failed"
    else
      .ok ([StartFlag, length, startByte2] ++ afterStart2.take (length + 2),
           afterStart2.drop (length + 2))

/-- `Reader.ReadFrame` over a finite byte stream: skip noise up to the first
0x68, then read the rest of one frame candidate.  Returns the accumulated
frame bytes and the unconsumed remainder of the stream. -/
def ReadFrame (s : List Nat) : Except String (List Nat × List Nat) :=
  match seekStart s with
  | none => .error "read start flag failed"
  | some afterStart => readAfterStart afterStart

/-! ## BCD codec (`types.BCDCodec`) -/

/-- `BCD.FromBCD`: high nibble times ten plus low nibble. -/
def fromBCD (b : Nat) : Nat := ((b / 16) % 16) * 10 + b % 16

/-- `BCD.IsValid`: both nibbles in 0–9. -/
def isValidBCD (b : Nat) : Bool := (b / 16) % 16 ≤ 9 && b % 16 ≤ 9

/-! ## Control field (`types.Control`) -/

/-- `types.Control`: the first control byte plus the optional split-count
byte (`divs`, a nil-able pointer in Go). -/
structure Control where
  value : Nat
  divs : Option Nat
deriving DecidableEq, Repr

/-- `types.NewControl`. -/
def NewControl (value : Nat) : Control := { value := value, divs := none }

namespace Control

/-- `Control.SetDIV`: set bit D6 and store the split count. -/
def SetDIV (c : Control) (count : Nat) : Control :=
  { value := c.value ||| 0x40, divs := some count }

/-- `Control.IsDIV`: test bit D6. -/
def IsDIV (c : Control) : Bool := c.value &&& 0x40 ≠ 0

/-- `Control.DIR`: test bit D7 (true = uplink). -/
def DIR (c : Control) : Bool := c.value &&& 0x80 ≠ 0

/-- `Control.SetDIR`: set or clear bit D7 (Go `&^ 0x80` on a byte clears
just that bit, i.e. masks with 0x7F). -/
def SetDIR (c : Control) (up : Bool) : Control :=
  if up then { c with value := c.value ||| 0x80 }
  else { c with value := c.value &&& 0x7F }

/-- `Control.SetFCB`: replace bits D5–D4. -/
def SetFCB (c : Control) (fcb : Nat) : Control :=
  { c with value := (c.value &&& 0xCF) ||| ((fcb &&& 0x03) * 16) }

/-- `Control.SetCode`: replace bits D3–D0. -/
def SetCode (c : Control) (code : Nat) : Control :=
  { c with value := (c.value &&& 0xF0) ||| (code &&& 0x0F) }

/-- `Control.Bytes`: one byte, or two when the split count is present. -/
def Bytes (c : Control) : List Nat :=
  match c.divs with
  | some d => [c.value, d]
  | none => [c.value]

/-- `Control.Length`. -/
def Length (c : Control) : Nat :=
  match c.divs with
  | some _ => 2
  | none => 1

end Control

/-! ## Address codec (`types.Address`, `types.ParseAddress`) -/

/-- Pad-or-truncate to `n` entries with zero fill: the effect of Go's
`make([]byte, n)` followed by `copy`. -/
def fit (n : Nat) (l : List Nat) : List Nat :=
  l.take n ++ List.replicate (n - l.length) 0

/-- The two wire formats of `types.Address` (`AddressV1` / `AddressV2`)
as a tagged variant. -/
inductive Address where
  | v1 (adminCode : List Nat) (stationID : Nat)
  | v2 (stationCode : List Nat)
deriving DecidableEq, Repr

namespace Address

/-- `AddressV1.Bytes` / `AddressV2.Bytes`: the 5-byte wire form, written
into a fresh 5-byte buffer with Go `copy` semantics. -/
def bytes : Address → List Nat
  | .v1 adminCode stationID =>
      fit 3 adminCode ++ [(stationID / 256) % 256, stationID % 256]
  | .v2 stationCode => 0 :: fit 4 stationCode

/-- `AddressV1.Validate` / `AddressV2.Validate`. -/
def validate : Address → Except String Unit
  | .v1 adminCode stationID =>
      if adminCode.length ≠ 3 then .error "bad admin code length"
      else if ¬(∀ b ∈ adminCode, isValidBCD b) then .error "invalid BCD"
      else if stationID = 0 then .error "invalid station id 0"
      else if stationID ≤ 60000 then .ok ()
      else if stationID ≤ 65534 then .ok ()
      else if stationID = 65535 then .ok ()
      else .error "station id out of range"
  | .v2 stationCode =>
      if stationCode.length ≠ 4 then .error "bad station code length"
      else if ¬(∀ b ∈ stationCode, (b / 16) % 16 ≤ 0x0F ∧ b % 16 ≤ 0x0F) then
        .error "invalid hex"
      else .ok ()

end Address

/-- `types.NewAddressV1`: copy the admin code into a fresh 3-byte buffer,
then validate. -/
def NewAddressV1 (adminCode : List Nat) (stationID : Nat) :
    Except String Address :=
  match (Address.v1 (fit 3 adminCode) stationID).validate with
  | .ok _ => .ok (Address.v1 (fit 3 adminCode) stationID)
  | .error e => .error e

/-- `types.NewAddressV2`: copy the station code into a fresh 4-byte buffer,
then validate. -/
def NewAddressV2 (stationCode : List Nat) : Except String Address :=
  match (Address.v2 (fit 4 stationCode)).validate with
  | .ok _ => .ok (Address.v2 (fit 4 stationCode))
  | .error e => .error e

/-- `types.ParseAddress`: dispatch on the leading feature byte. -/
def ParseAddress (data : List Nat) : Except String Address :=
  if data.length ≠ 5 then .error "bad address length"
  else if data.getD 0 0 = 0 then NewAddressV2 (data.drop 1)
  else NewAddressV1 (data.take 3) (256 * data.getD 3 0 + data.getD 4 0)

/-! ## Time label (`types.TimeLabel`) -/

/-- `types.TimeLabel`: six BCD time bytes plus a binary timeout byte. -/
structure TimeLabel where
  second : Nat
  minute : Nat
  hour : Nat
  day : Nat
  month : Nat
  year : Nat
  timeout : Nat
deriving DecidableEq, Repr

/-- `TimeLabel.Bytes`. -/
def TimeLabel.bytes (t : TimeLabel) : List Nat :=
  [t.second, t.minute, t.hour, t.day, t.month, t.year, t.timeout]

/-- `types.ParseTimestamp`: requires exactly 7 bytes. -/
def ParseTimestamp (data : List Nat) : Except String TimeLabel :=
  if data.length ≠ 7 then .error "invalid timestamp length"
  else .ok { second := data.getD 0 0, minute := data.getD 1 0,
             hour := data.getD 2 0, day := data.getD 3 0,
             month := data.getD 4 0, year := data.getD 5 0,
             timeout := data.getD 6 0 }

/-- `types.isValidTimeLabel`: plausibility of a 7-byte tail.  Bytes 0–4
(second, minute, hour, day, month) are BCD-checked and range-checked; the
year and timeout bytes are not examined. -/
def isValidTimeLabel (data : List Nat) : Bool :=
  if data.length ≠ 7 then false
  else if isValidBCD (data.getD 0 0) = false ∨ fromBCD (data.getD 0 0) > 59 then
    false
  else if isValidBCD (data.getD 1 0) = false ∨ fromBCD (data.getD 1 0) > 59 then
    false
  else if isValidBCD (data.getD 2 0) = false ∨ fromBCD (data.getD 2 0) > 23 then
    false
  else if isValidBCD (data.getD 3 0) = false ∨ fromBCD (data.getD 3 0) > 31
      ∨ fromBCD (data.getD 3 0) = 0 then false
  else if isValidBCD (data.getD 4 0) = false ∨ fromBCD (data.getD 4 0) > 12
      ∨ fromBCD (data.getD 4 0) = 0 then false
  else true

/-! ## User data region (`types.UserData`) -/

/-- `types.UserData`: the decoded user-data region.  `pw` is the Go
`PW *byte` — a single optional byte, despite the 2-byte password of the
protocol. -/
structure UserData where
  control : Control
  address : Address
  afn : Nat
  userAFN : Option Nat
  dataField : List Nat
  pw : Option Nat
  tp : Option TimeLabel
deriving DecidableEq, Repr

/-- Step 5 of `types.NewUserData`: if at least 7 bytes remain and the last 7
are a plausible time label that parses, extract them from the tail. -/
def extractTimeLabel (restData : List Nat) : Option TimeLabel × List Nat :=
  if restData.length ≥ 7 then
    let timeData := restData.drop (restData.length - 7)
    if isValidTimeLabel timeData then
      match ParseTimestamp timeData with
      | .ok timestamp => (some timestamp, restData.take (restData.length - 7))
      | .error _ => (none, restData)
    else (none, restData)
  else (none, restData)

/-- Steps 5–7 of `types.NewUserData`: time-label extraction, then password
extraction on downlink frames (one byte taken from position `len-2`, two
bytes removed), then the remainder becomes the data field. -/
def finishUserData (ctrl : Control) (addr : Address) (afn : Nat)
    (userAFN : Option Nat) (restData : List Nat) : UserData :=
  let tpRest := extractTimeLabel restData
  let rest2 := tpRest.2
  let pwRest :=
    if ¬ctrl.DIR ∧ rest2.length ≥ 2 then
      (some (rest2.getD (rest2.length - 2) 0), rest2.take (rest2.length - 2))
    else ((none : Option Nat), rest2)
  { control := ctrl, address := addr, afn := afn, userAFN := userAFN,
    dataField := pwRest.2, pw := pwRest.1, tp := tpRest.1 }

/-- Steps 2–7 of `types.NewUserData`, after the control field consumed
`offset` bytes. -/
def parseAfterControl (ctrl : Control) (offset : Nat) (data : List Nat) :
    Except String UserData :=
  match ParseAddress ((data.drop offset).take 5) with
  | .error e => .error ("parse address failed: " ++ e)
  | .ok addr =>
    let afn := data.getD (offset + 5) 0
    let offset2 := offset + 6
    if afn = 0xFF then
      if offset2 ≥ data.length then .error "parse user AFN failed"
      else .ok (finishUserData ctrl addr afn (some (data.getD offset2 0))
                  (data.drop (offset2 + 1)))
    else .ok (finishUserData ctrl addr afn none (data.drop offset2))

/-- `types.NewUserData`: parse a user-data region byte stream. -/
def NewUserData (data : List Nat) : Except String UserData :=
  if data.length < 7 then .error "data too short"
  else
    let ctrl := NewControl (data.getD 0 0)
    if ctrl.IsDIV then
      if data.length < 8 then .error "split frame data too short"
      else parseAfterControl (ctrl.SetDIV (data.getD 1 0)) 2 data
    else parseAfterControl ctrl 1 data

/-- The AFN values accepted by `AFN.IsValid` (0xC0, 0x81, 0x82, 0x83, 0x84). -/
def afnIsValid (a : Nat) : Bool :=
  a = 0xC0 || a = 0x81 || a = 0x82 || a = 0x83 || a = 0x84

/-- `UserData.Bytes`: control bytes, address bytes, AFN, optional user AFN,
data field, optional password byte, optional time label. -/
def UserData.bytes (u : UserData) : List Nat :=
  u.control.Bytes ++ u.address.bytes ++ [u.afn]
    ++ (match u.userAFN with | some b => [b] | none => [])
    ++ u.dataField
    ++ (match u.pw with | some b => [b] | none => [])
    ++ (match u.tp with | some t => t.bytes | none => [])

/-- `UserData.Validate`. -/
def UserData.validate (u : UserData) : Except String Unit :=
  match u.address.validate with
  | .error e => .error ("invalid address: " ++ e)
  | .ok _ =>
    if ¬afnIsValid u.afn then .error "invalid AFN"
    else if u.afn = 0xFF ∧ u.userAFN = none then .error "missing user AFN"
    else if ¬u.control.DIR ∧ u.pw = none then .error "downlink missing password"
    else .ok ()

/-! ## The control values constructible through the public interface -/

/-- The `Control` values obtainable from the package's exported API:
`NewControl` on any byte, optionally followed by the setter methods. -/
inductive ReachableControl : Control → Prop where
  | new (b : Nat) (hb : b < 256) : ReachableControl (NewControl b)
  | setDIV (c : Control) (d : Nat) (hd : d < 256) (h : ReachableControl c) :
      ReachableControl (c.SetDIV d)
  | setDIR (c : Control) (up : Bool) (h : ReachableControl c) :
      ReachableControl (c.SetDIR up)
  | setFCB (c : Control) (f : Nat) (h : ReachableControl c) :
      ReachableControl (c.SetFCB f)
  | setCode (c : Control) (k : Nat) (h : ReachableControl c) :
      ReachableControl (c.SetCode k)

/-! ## Helper lemmas -/

theorem specCSAux_eq_foldl (data : List Nat) : ∀ crc : Nat,
    List.foldl (fun crc b => csShift8 (crc ^^^ b)) crc data = specCSAux crc data := by
  induction data with
  | nil => intro crc; rfl
  | cons b rest ih => intro crc; simpa [List.foldl, specCSAux] using ih _

theorem testBit6_of_land64_ne (v : Nat) (h : v &&& 0x40 ≠ 0) : v.testBit 6 := by
  rcases hb : v.testBit 6 with _ | _
  · exfalso
    apply h
    have := Nat.and_two_pow v 6
    norm_num at this
    rw [this, hb]
    rfl
  · rfl

theorem land64_ne_of_testBit6 (v : Nat) (h : v.testBit 6) : v &&& 0x40 ≠ 0 := by
  have := Nat.and_two_pow v 6
  norm_num at this
  rw [this, h]
  decide

/-! ## C1: the checksum function equals the documented algorithm -/

/-- C1: `calculateCS` computes exactly the documented CRC-style bit-shift
algorithm with polynomial 0xE4 masked to the low 7 bits; the empty region
yields 0x00 and the literal vector [0x80,01,02,03,04,05,C0,01] yields 0x74. -/
theorem checksum_matches_documented_algorithm :
    (∀ data : List Nat, calculateCS data = specCS data) ∧
    calculateCS [] = 0 ∧
    calculateCS [0x80, 0x01, 0x02, 0x03, 0x04, 0x05, 0xC0, 0x01] = 0x74 := by
  refine ⟨?_, rfl, ?_⟩
  · intro data
    show List.foldl _ 0 data &&& 0x7F = specCSAux 0 data &&& 0x7F
    rw [specCSAux_eq_foldl]
  · set_option maxRecDepth 4000 in decide

/-! ## C6: encode never validates the region length -/

/-- C6 counterexample: encoding a frame whose user-data region is empty
does not fail with a length error — `EncodePacket` returns a 5-byte wire
image without any error. -/
theorem encodePacket_empty_region_succeeds :
    EncodePacket ⟨⟨StartFlag, 0, StartFlag⟩, [], 0, 0⟩ =
      .ok [0x68, 0x00, 0x68, 0x00, 0x16] := rfl

/-- C6 amended: `EncodePacket` performs no length validation and never
fails; for a frame with start flags 0x68 and length byte `len(r)` it emits
exactly `0x68, len(r), 0x68, r..., checksum, 0x16`, which is `len(r) + 5`
bytes. -/
theorem encodePacket_total_layout :
    (∀ f : Frame, (EncodePacket f).isOk = true) ∧
    (∀ r : List Nat,
      EncodePacket ⟨⟨StartFlag, r.length, StartFlag⟩, r, 0, 0⟩ =
        .ok ([StartFlag, r.length, StartFlag] ++ r ++ [calculateCS r, EndFlag]) ∧
      ([StartFlag, r.length, StartFlag] ++ r ++ [calculateCS r, EndFlag]).length =
        r.length + 5) := by
  refine ⟨fun f => rfl, fun r => ⟨rfl, ?_⟩⟩
  simp [List.length_append]

/-! ## C8: the reader does not reject a zero length byte -/

/-- C8: contrary to the specified `READ_LENGTH` state, `Reader.ReadFrame`
performs no zero-length check: on the stream 68 00 68 00 16 it reads the
whole 5-byte candidate and returns it without error. -/
theorem readFrame_zero_length_no_error :
    ReadFrame [0x68, 0x00, 0x68, 0x00, 0x16] =
      .ok ([0x68, 0x00, 0x68, 0x00, 0x16], []) := rfl

/-! ## C9: control wire length -/

theorem testBit6_lor_small (v w : Nat) (hw : w < 64) :
    (v ||| w).testBit 6 = v.testBit 6 := by
  rw [Nat.testBit_lor, Nat.testBit_eq_false_of_lt (show w < 2 ^ 6 by omega),
    Bool.or_false]

theorem testBit6_land_mask (v m : Nat) (hm : m.testBit 6 = true) :
    (v &&& m).testBit 6 = v.testBit 6 := by
  rw [Nat.testBit_land, hm, Bool.and_true]

theorem reachable_divs_isDIV (c : Control) (h : ReachableControl c) :
    c.divs ≠ none → c.IsDIV = true := by
  induction h with
  | new b hb =>
    intro hd
    simp [NewControl] at hd
  | setDIV c' d hd' hr ih =>
    intro _
    simp only [Control.IsDIV, Control.SetDIV, ne_eq, decide_eq_true_eq]
    apply land64_ne_of_testBit6
    rw [Nat.testBit_lor]
    simp [show Nat.testBit 0x40 6 = true from rfl]
  | setDIR c' up hr ih =>
    intro hd
    have hv : c'.value.testBit 6 = true := by
      apply testBit6_of_land64_ne
      have := ih (by simpa [Control.SetDIR] using
        (by cases up <;> simpa [Control.SetDIR] using hd : c'.divs ≠ none))
      simpa [Control.IsDIV] using this
    cases up <;>
      simp only [Control.IsDIV, Control.SetDIR, if_true, if_false, ne_eq,
        decide_eq_true_eq, Bool.false_eq_true] <;>
      apply land64_ne_of_testBit6
    · rw [testBit6_land_mask _ _ (show Nat.testBit 0x7F 6 = true from rfl), hv]
    · rw [Nat.testBit_lor, show Nat.testBit 0x80 6 = false from rfl,
        Bool.or_false, hv]
  | setFCB c' f hr ih =>
    intro hd
    have hv : c'.value.testBit 6 = true := by
      apply testBit6_of_land64_ne
      have := ih (by simpa [Control.SetFCB] using hd)
      simpa [Control.IsDIV] using this
    simp only [Control.IsDIV, Control.SetFCB, ne_eq, decide_eq_true_eq]
    apply land64_ne_of_testBit6
    have hsmall : (f &&& 0x03) * 16 < 64 := by
      have : f &&& 0x03 ≤ 0x03 := Nat.and_le_right
      omega
    rw [testBit6_lor_small _ _ hsmall,
      testBit6_land_mask _ _ (show Nat.testBit 0xCF 6 = true from rfl), hv]
  | setCode c' k hr ih =>
    intro hd
    have hv : c'.value.testBit 6 = true := by
      apply testBit6_of_land64_ne
      have := ih (by simpa [Control.SetCode] using hd)
      simpa [Control.IsDIV] using this
    simp only [Control.IsDIV, Control.SetCode, ne_eq, decide_eq_true_eq]
    apply land64_ne_of_testBit6
    have hsmall : k &&& 0x0F < 64 := by
      have : k &&& 0x0F ≤ 0x0F := Nat.and_le_right
      omega
    rw [testBit6_lor_small _ _ hsmall,
      testBit6_land_mask _ _ (show Nat.testBit 0xF0 6 = true from rfl), hv]

/-- C9 counterexample: `NewControl 0x40` is constructible through the public
interface and has the split-flag bit 0x40 set, yet its wire form is one
byte, not two. -/
theorem control_divbit_without_divs_encodes_one_byte :
    ReachableControl (NewControl 0x40) ∧
    (NewControl 0x40).value &&& 0x40 ≠ 0 ∧
    (NewControl 0x40).Bytes.length = 1 :=
  ⟨.new 0x40 (by decide), by decide, rfl⟩

/-- C9 amended: for every publicly constructible Control, the encoded wire
form has length 2 exactly when the optional split-count byte (`divs`) is
present; `divs` can only be present when bit 0x40 is set (the converse fails,
since `NewControl` accepts a raw byte with bit 0x40 already set); and
`Control.Length` always agrees with the length of `Control.Bytes`. -/
theorem control_length_spec (c : Control) (h : ReachableControl c) :
    (c.Bytes.length = 2 ↔ c.divs ≠ none) ∧
    (c.divs ≠ none → c.IsDIV = true) ∧
    c.Length = c.Bytes.length := by
  refine ⟨?_, reachable_divs_isDIV c h, ?_⟩
  · cases hd : c.divs <;> simp [Control.Bytes, hd]
  · cases hd : c.divs <;> simp [Control.Bytes, Control.Length, hd]

/-- C9 witness: the amended statement applied to the concrete control
`NewControl 0x00` followed by `SetDIV 0x07`. -/
theorem control_length_spec_witness :
    ((NewControl 0x00).SetDIV 0x07).Bytes.length = 2 ∧
    ((NewControl 0x00).SetDIV 0x07).IsDIV = true ∧
    ((NewControl 0x00).SetDIV 0x07).Length = 2 := by
  have h := control_length_spec ((NewControl 0x00).SetDIV 0x07)
    (.setDIV _ 0x07 (by decide) (.new 0x00 (by decide)))
  refine ⟨h.1.mpr (by decide), h.2.1 (by decide), ?_⟩
  rw [h.2.2]
  exact h.1.mpr (by decide)

/-! ## C2: frame decode success conditions -/

/-- The success condition of `DecodePacket`, shaped exactly like the code's
checks. -/
theorem decodePacket_isOk_iff_aux (data : List Nat) :
    (DecodePacket data).isOk = true ↔
      (¬data.length < 7 ∧ (data.getD 0 0 = 0x68 ∧ data.getD 2 0 = 0x68) ∧
        data.getD (data.length - 1) 0 = 0x16 ∧
        data.length = data.getD 1 0 + 5 ∧
        calculateCS ((data.drop 3).take (data.length - 5)) =
          data.getD (data.length - 2) 0) := by
  unfold DecodePacket MinFrameLen StartFlag EndFlag
  split_ifs with h1 h2 h3 h4 h5 <;> simp_all [Except.isOk, Except.toBool]

/-- C2: `DecodePacket` succeeds exactly when the input is at least 7 bytes,
both start flags are 0x68, the total length equals the length byte plus 5,
the last byte is 0x16, and the checksum over `data[3:3+L]` equals
`data[3+L]` (`L` the length byte); on success the frame's user-data region
is exactly those `L` bytes. -/
theorem decodePacket_success_iff (data : List Nat) :
    ((DecodePacket data).isOk = true ↔
      (7 ≤ data.length ∧ data.getD 0 0 = 0x68 ∧ data.getD 2 0 = 0x68 ∧
        data.length = data.getD 1 0 + 5 ∧
        data.getD (data.length - 1) 0 = 0x16 ∧
        calculateCS ((data.drop 3).take (data.getD 1 0)) =
          data.getD (data.getD 1 0 + 3) 0)) ∧
    (∀ fr, DecodePacket data = .ok fr →
      fr.userDataRaw = (data.drop 3).take (data.getD 1 0)) := by
  constructor
  · rw [decodePacket_isOk_iff_aux]
    constructor
    · rintro ⟨n1, ⟨f0, f2⟩, ef, ln, cs⟩
      refine ⟨by omega, f0, f2, ln, ef, ?_⟩
      rwa [show data.length - 5 = data.getD 1 0 by omega,
        show data.length - 2 = data.getD 1 0 + 3 by omega] at cs
    · rintro ⟨n1, f0, f2, ln, ef, cs⟩
      refine ⟨by omega, ⟨f0, f2⟩, ef, ln, ?_⟩
      rwa [show data.length - 5 = data.getD 1 0 by omega,
        show data.length - 2 = data.getD 1 0 + 3 by omega]
  · intro fr hfr
    unfold DecodePacket at hfr
    split_ifs at hfr with h1 h2 h3 h4 h5
    simp only [Except.ok.injEq] at hfr
    subst hfr
    show (data.drop 3).take (data.length - 5) = (data.drop 3).take (data.getD 1 0)
    rw [show data.length - 5 = data.getD 1 0 by omega]

/-- C2 witness: the success conditions and extracted region evaluated on the
concrete valid frame 68 02 68 09 09 34 16. -/
theorem decodePacket_success_iff_witness :
    (DecodePacket [0x68, 0x02, 0x68, 0x09, 0x09, 0x34, 0x16]).isOk = true ∧
    (∀ fr, DecodePacket [0x68, 0x02, 0x68, 0x09, 0x09, 0x34, 0x16] = .ok fr →
      fr.userDataRaw = [0x09, 0x09]) := by
  have h := decodePacket_success_iff [0x68, 0x02, 0x68, 0x09, 0x09, 0x34, 0x16]
  refine ⟨h.1.mpr (by decide), fun fr hfr => ?_⟩
  have := h.2 fr hfr
  simpa using this

/-! ## C3: frame round-trip -/

/-- C3 counterexample: a frame with a one-byte user-data region (length 1 is
allowed by the claim) encodes to a 6-byte wire image, which `DecodePacket`
rejects as too short (`MinFrameLen` is 7). -/
theorem encode_one_byte_region_fails_decode :
    EncodePacket ⟨⟨0x68, 0x01, 0x68⟩, [0x00], 0, 0⟩ =
      .ok [0x68, 0x01, 0x68, 0x00, 0x00, 0x16] ∧
    DecodePacket [0x68, 0x01, 0x68, 0x00, 0x00, 0x16] =
      .error "packet too short" := ⟨rfl, rfl⟩

/-- C3 amended: for every region of 2 to 255 bytes (not 1 to 255: a one-byte
region encodes to 6 bytes and is rejected by the decoder's minimum-length
check), encoding with start flags 0x68 and length byte `len(r)` and then
decoding reproduces the region and its checksum. -/
theorem frame_roundtrip_two_to_255 (r out : List Nat)
    (h2 : 2 ≤ r.length) (h255 : r.length ≤ 255)
    (henc : EncodePacket ⟨⟨StartFlag, r.length, StartFlag⟩, r, 0, 0⟩ = .ok out) :
    DecodePacket out =
      .ok ⟨⟨StartFlag, r.length, StartFlag⟩, r, calculateCS r, EndFlag⟩ := by
  have hout : out =
      StartFlag :: r.length :: StartFlag :: (r ++ [calculateCS r, EndFlag]) := by
    unfold EncodePacket at henc
    simp only [Except.ok.injEq] at henc
    rw [← henc]
    simp
  subst hout
  have hlen : (StartFlag :: r.length :: StartFlag ::
      (r ++ [calculateCS r, EndFlag])).length = r.length + 5 := by simp
  have hA : (r ++ [calculateCS r, EndFlag]).getD (r.length + 1) 0 = EndFlag := by
    rw [List.getD_append_right _ _ _ _ (by omega)]
    simp [show r.length + 1 - r.length = 1 by omega]
  have hB : (r ++ [calculateCS r, EndFlag]).getD r.length 0 = calculateCS r := by
    rw [List.getD_append_right _ _ _ _ (by omega)]
    simp
  unfold DecodePacket MinFrameLen
  rw [hlen]
  rw [show r.length + 5 - 1 = (r.length + 1) + 3 by omega,
    show r.length + 5 - 2 = r.length + 3 by omega,
    show r.length + 5 - 5 = r.length by omega]
  have hkey : ∀ k, (StartFlag :: r.length :: StartFlag ::
      (r ++ [calculateCS r, EndFlag])).getD (k + 3) 0 =
      (r ++ [calculateCS r, EndFlag]).getD k 0 := fun _ => rfl
  rw [hkey (r.length + 1), hkey r.length, hA, hB]
  have hdrop : (StartFlag :: r.length :: StartFlag ::
      (r ++ [calculateCS r, EndFlag])).drop 3 = r ++ [calculateCS r, EndFlag] := rfl
  rw [hdrop, List.take_left]
  rw [if_neg (by omega)]
  rw [if_neg (not_not_intro ⟨rfl, rfl⟩)]
  rw [if_neg (by simp)]
  rw [if_neg (by show ¬(r.length + 5 ≠ _ + 5); simp [List.getD])]
  rw [if_neg (by simp)]
  rfl

/-- C3 witness: the amended round-trip applied to the concrete two-byte
region 09 09. -/
theorem frame_roundtrip_two_to_255_witness :
    DecodePacket [0x68, 0x02, 0x68, 0x09, 0x09, 0x34, 0x16] =
      .ok ⟨⟨0x68, 2, 0x68⟩, [0x09, 0x09], 0x34, 0x16⟩ := by
  have h := frame_roundtrip_two_to_255 [0x09, 0x09]
    [0x68, 0x02, 0x68, 0x09, 0x09, 0x34, 0x16] (by decide) (by decide) (by rfl)
  simpa using h

/-! ## C5: stream resynchronization -/

theorem seekStart_skips (p rest : List Nat) (hp : ∀ b ∈ p, b ≠ 0x68) :
    seekStart (p ++ (0x68 :: rest)) = some rest := by
  induction p with
  | nil => simp [seekStart, StartFlag]
  | cons a q ih =>
    have ha : a ≠ 0x68 := hp a (by simp)
    simp only [List.cons_append, seekStart, StartFlag, if_neg ha]
    exact ih (fun b hb => hp b (by simp [hb]))

/-- C5: for a decodable frame `F` and any finite prefix of non-0x68 bytes,
`ReadFrame` on `prefix ++ F` returns exactly the bytes of `F` and leaves
nothing of the stream unconsumed — it consumes `len(prefix) + len(F)` bytes,
so decoding the returned bytes is decoding `F` alone. -/
theorem readFrame_resync (p F : List Nat) (fr : Frame)
    (hp : ∀ b ∈ p, b ≠ 0x68) (hF : DecodePacket F = .ok fr) :
    ReadFrame (p ++ F) = .ok (F, []) := by
  have hok : (DecodePacket F).isOk = true := by rw [hF]; rfl
  obtain ⟨h7, ⟨hf0, hf2⟩, hend, hlen, hcs⟩ :=
    (decodePacket_isOk_iff_aux F).mp hok
  rcases F with _ | ⟨b0, _ | ⟨b1, _ | ⟨b2, Frest⟩⟩⟩
  · simp at h7
  · simp at h7
  · simp at h7
  · have hb0 : b0 = 0x68 := by simpa [List.getD] using hf0
    have hb2 : b2 = 0x68 := by simpa [List.getD] using hf2
    subst hb0
    subst hb2
    have hfl : Frest.length = b1 + 2 := by
      have h := hlen
      simp only [List.length_cons,
        show (0x68 :: b1 :: 0x68 :: Frest).getD 1 0 = b1 from rfl] at h
      omega
    have hseek : seekStart (p ++ 0x68 :: b1 :: 0x68 :: Frest) =
        some (b1 :: 0x68 :: Frest) := seekStart_skips p _ hp
    have hread : ReadFrame (p ++ 0x68 :: b1 :: 0x68 :: Frest) =
        readAfterStart (b1 :: 0x68 :: Frest) := by
      unfold ReadFrame
      rw [hseek]
    rw [hread]
    simp only [readAfterStart]
    rw [if_neg (by decide)]
    rw [if_neg (by omega)]
    rw [List.take_of_length_le (by omega), List.drop_eq_nil_of_le (by omega)]
    rfl

/-- C5 witness: the resync theorem applied to the noise prefix 01 02 03 and
the concrete frame 68 02 68 09 09 34 16. -/
theorem readFrame_resync_witness :
    ReadFrame ([0x01, 0x02, 0x03] ++ [0x68, 0x02, 0x68, 0x09, 0x09, 0x34, 0x16]) =
      .ok ([0x68, 0x02, 0x68, 0x09, 0x09, 0x34, 0x16], []) := by
  refine readFrame_resync _ _ ⟨⟨0x68, 2, 0x68⟩, [0x09, 0x09], 0x34, 0x16⟩
    (by decide) (by rfl)

/-! ## C10: address decoding validates eagerly -/

theorem newAddressV1_ok (adminCode : List Nat) (sid : Nat) (a : Address)
    (h : NewAddressV1 adminCode sid = .ok a) :
    a.validate = .ok () ∧ a = .v1 (fit 3 adminCode) sid := by
  unfold NewAddressV1 at h
  rcases hv : (Address.v1 (fit 3 adminCode) sid).validate with e | u
  · rw [hv] at h
    exact Except.noConfusion h
  · cases u
    rw [hv] at h
    simp only [Except.ok.injEq] at h
    subst h
    exact ⟨hv, rfl⟩

theorem newAddressV2_ok (stationCode : List Nat) (a : Address)
    (h : NewAddressV2 stationCode = .ok a) :
    a.validate = .ok () ∧ a = .v2 (fit 4 stationCode) := by
  unfold NewAddressV2 at h
  rcases hv : (Address.v2 (fit 4 stationCode)).validate with e | u
  · rw [hv] at h
    exact Except.noConfusion h
  · cases u
    rw [hv] at h
    simp only [Except.ok.injEq] at h
    subst h
    exact ⟨hv, rfl⟩

/-- The defining equation of `Address.validate` on the V1 constructor. -/
theorem validate_v1_def (ac : List Nat) (sid : Nat) :
    (Address.v1 ac sid).validate =
      (if ac.length ≠ 3 then .error "bad admin code length"
       else if ¬(∀ b ∈ ac, isValidBCD b) then .error "invalid BCD"
       else if sid = 0 then .error "invalid station id 0"
       else if sid ≤ 60000 then .ok ()
       else if sid ≤ 65534 then .ok ()
       else if sid = 65535 then .ok ()
       else .error "station id out of range") := rfl

theorem newAddressV1_isOk (ac : List Nat) (sid : Nat) :
    (NewAddressV1 ac sid).isOk = ((Address.v1 (fit 3 ac) sid).validate).isOk := by
  unfold NewAddressV1
  rcases hv : (Address.v1 (fit 3 ac) sid).validate with e | u <;> rfl

/-- C10: `ParseAddress` on a 5-byte input either fails or returns an address
that passes `Validate`; and whenever the first byte is non-zero, it fails if
the big-endian station id is 0 or any of the first three bytes is not valid
BCD. -/
theorem parseAddress_validates (data : List Nat)
    (hlen : data.length = 5) (hbytes : ∀ b ∈ data, b < 256) :
    (∀ a, ParseAddress data = .ok a → a.validate = .ok ()) ∧
    (data.getD 0 0 ≠ 0 →
      (256 * data.getD 3 0 + data.getD 4 0 = 0 ∨
        ¬∀ b ∈ data.take 3, isValidBCD b) →
      (ParseAddress data).isOk = false) := by
  constructor
  · intro a ha
    unfold ParseAddress at ha
    rw [if_neg (by omega)] at ha
    by_cases h0 : data.getD 0 0 = 0
    · rw [if_pos h0] at ha
      exact (newAddressV2_ok _ _ ha).1
    · rw [if_neg h0] at ha
      exact (newAddressV1_ok _ _ _ ha).1
  · intro h0 hbad
    have hlen3 : (data.take 3).length = 3 := by
      rw [List.length_take]
      omega
    have hfit : fit 3 (data.take 3) = data.take 3 := by
      unfold fit
      rw [hlen3]
      simp [List.take_take]
    unfold ParseAddress
    rw [if_neg (by omega), if_neg h0, newAddressV1_isOk, hfit, validate_v1_def]
    rw [if_neg (by simp [hlen3])]
    rcases hbad with hsid | hbcd
    · by_cases hb : ∀ b ∈ data.take 3, isValidBCD b
      · rw [if_neg (not_not_intro hb), if_pos hsid]
        rfl
      · rw [if_pos hb]
        rfl
    · rw [if_pos hbcd]
      rfl

/-- C10 witness: a non-BCD admin byte (0x1A) makes `ParseAddress` fail, and
a coded-address input decodes to an address passing `Validate`. -/
theorem parseAddress_validates_witness :
    (ParseAddress [0x1A, 0x05, 0x25, 0x04, 0xD2]).isOk = false ∧
    (∀ a, ParseAddress [0x00, 0x80, 0x00, 0x00, 0x01] = .ok a →
      a.validate = .ok ()) := by
  constructor
  · exact (parseAddress_validates [0x1A, 0x05, 0x25, 0x04, 0xD2]
      (by decide) (by decide)).2 (by decide) (Or.inr (by decide))
  · exact (parseAddress_validates [0x00, 0x80, 0x00, 0x00, 0x01]
      (by decide) (by decide)).1

/-! ## C7: time-label plausibility and extraction -/

/-- C7 counterexample: the user-data bytes whose tail is
00 00 00 01 01 FF 00 have a year byte 0xFF that is not valid BCD, yet
decoding extracts the tail as a time label — `isValidTimeLabel` never
examines the year or timeout byte. -/
theorem timeLabel_extracted_with_invalid_year_bcd :
    isValidBCD 0xFF = false ∧
    (NewUserData [0x80, 0x21, 0x05, 0x25, 0x04, 0xD2, 0xC0,
        0x00, 0x00, 0x00, 0x01, 0x01, 0xFF, 0x00]).toOption.map
      (fun u => (u.tp, u.dataField)) =
      some (some ⟨0x00, 0x00, 0x00, 0x01, 0x01, 0xFF, 0x00⟩, []) := by
  refine ⟨rfl, by decide⟩

/-- The plausibility test, characterized: BCD validity and ranges of the
first five bytes only. -/
theorem isValidTimeLabel_iff (t : List Nat) (ht : t.length = 7) :
    isValidTimeLabel t = true ↔
      (isValidBCD (t.getD 0 0) = true ∧ fromBCD (t.getD 0 0) ≤ 59 ∧
       isValidBCD (t.getD 1 0) = true ∧ fromBCD (t.getD 1 0) ≤ 59 ∧
       isValidBCD (t.getD 2 0) = true ∧ fromBCD (t.getD 2 0) ≤ 23 ∧
       isValidBCD (t.getD 3 0) = true ∧ 1 ≤ fromBCD (t.getD 3 0) ∧
       fromBCD (t.getD 3 0) ≤ 31 ∧
       isValidBCD (t.getD 4 0) = true ∧ 1 ≤ fromBCD (t.getD 4 0) ∧
       fromBCD (t.getD 4 0) ≤ 12) := by
  unfold isValidTimeLabel
  rw [if_neg (by omega)]
  constructor
  · intro htrue
    split_ifs at htrue with h1 h2 h3 h4 h5
    simp only [not_or, Bool.not_eq_false] at h1 h2 h3 h4 h5
    exact ⟨h1.1, by omega, h2.1, by omega, h3.1, by omega, h4.1, by omega,
      by omega, h5.1, by omega, by omega⟩
  · rintro ⟨c0, c0r, c1, c1r, c2, c2r, c3, c3a, c3b, c4, c4a, c4b⟩
    have n1 : ¬(isValidBCD (t.getD 0 0) = false ∨ fromBCD (t.getD 0 0) > 59) := by
      rintro (h | h)
      · rw [c0] at h
        simp at h
      · omega
    have n2 : ¬(isValidBCD (t.getD 1 0) = false ∨ fromBCD (t.getD 1 0) > 59) := by
      rintro (h | h)
      · rw [c1] at h
        simp at h
      · omega
    have n3 : ¬(isValidBCD (t.getD 2 0) = false ∨ fromBCD (t.getD 2 0) > 23) := by
      rintro (h | h)
      · rw [c2] at h
        simp at h
      · omega
    have n4 : ¬(isValidBCD (t.getD 3 0) = false ∨ fromBCD (t.getD 3 0) > 31
        ∨ fromBCD (t.getD 3 0) = 0) := by
      rintro (h | h | h)
      · rw [c3] at h
        simp at h
      · omega
      · omega
    have n5 : ¬(isValidBCD (t.getD 4 0) = false ∨ fromBCD (t.getD 4 0) > 12
        ∨ fromBCD (t.getD 4 0) = 0) := by
      rintro (h | h | h)
      · rw [c4] at h
        simp at h
      · omega
      · omega
    rw [if_neg n1, if_neg n2, if_neg n3, if_neg n4, if_neg n5]

/-- C7 amended: during user-data decoding, when at least 7 bytes remain the
last 7 are extracted as the time label and removed from the tail exactly
when seconds ≤ 59, minutes ≤ 59, hours ≤ 23, day in 1–31 and month in 1–12
(as BCD values) with the corresponding five bytes valid BCD — the year and
timeout bytes are not BCD-checked; otherwise the bytes stay in place. -/
theorem extractTimeLabel_spec (rest : List Nat) (h7 : 7 ≤ rest.length) :
    ((extractTimeLabel rest).1 ≠ none ↔
      (isValidBCD ((rest.drop (rest.length - 7)).getD 0 0) = true ∧
       fromBCD ((rest.drop (rest.length - 7)).getD 0 0) ≤ 59 ∧
       isValidBCD ((rest.drop (rest.length - 7)).getD 1 0) = true ∧
       fromBCD ((rest.drop (rest.length - 7)).getD 1 0) ≤ 59 ∧
       isValidBCD ((rest.drop (rest.length - 7)).getD 2 0) = true ∧
       fromBCD ((rest.drop (rest.length - 7)).getD 2 0) ≤ 23 ∧
       isValidBCD ((rest.drop (rest.length - 7)).getD 3 0) = true ∧
       1 ≤ fromBCD ((rest.drop (rest.length - 7)).getD 3 0) ∧
       fromBCD ((rest.drop (rest.length - 7)).getD 3 0) ≤ 31 ∧
       isValidBCD ((rest.drop (rest.length - 7)).getD 4 0) = true ∧
       1 ≤ fromBCD ((rest.drop (rest.length - 7)).getD 4 0) ∧
       fromBCD ((rest.drop (rest.length - 7)).getD 4 0) ≤ 12)) ∧
    ((extractTimeLabel rest).1 ≠ none →
      extractTimeLabel rest =
        (some ⟨(rest.drop (rest.length - 7)).getD 0 0,
               (rest.drop (rest.length - 7)).getD 1 0,
               (rest.drop (rest.length - 7)).getD 2 0,
               (rest.drop (rest.length - 7)).getD 3 0,
               (rest.drop (rest.length - 7)).getD 4 0,
               (rest.drop (rest.length - 7)).getD 5 0,
               (rest.drop (rest.length - 7)).getD 6 0⟩,
         rest.take (rest.length - 7))) ∧
    ((extractTimeLabel rest).1 = none → extractTimeLabel rest = (none, rest)) := by
  have ht : (rest.drop (rest.length - 7)).length = 7 := by
    rw [List.length_drop]
    omega
  have hts : ParseTimestamp (rest.drop (rest.length - 7)) =
      .ok ⟨(rest.drop (rest.length - 7)).getD 0 0,
           (rest.drop (rest.length - 7)).getD 1 0,
           (rest.drop (rest.length - 7)).getD 2 0,
           (rest.drop (rest.length - 7)).getD 3 0,
           (rest.drop (rest.length - 7)).getD 4 0,
           (rest.drop (rest.length - 7)).getD 5 0,
           (rest.drop (rest.length - 7)).getD 6 0⟩ := by
    unfold ParseTimestamp
    rw [if_neg (by omega)]
  have hext : extractTimeLabel rest =
      (if isValidTimeLabel (rest.drop (rest.length - 7)) then
        match ParseTimestamp (rest.drop (rest.length - 7)) with
        | .ok timestamp => (some timestamp, rest.take (rest.length - 7))
        | .error _ => (none, rest)
      else (none, rest)) := by
    unfold extractTimeLabel
    rw [if_pos h7]
  by_cases hv : isValidTimeLabel (rest.drop (rest.length - 7)) = true
  · rw [hext, if_pos hv, hts]
    refine ⟨?_, fun _ => rfl, fun hn => ?_⟩
    · simp only [ne_eq, reduceCtorEq, not_false_eq_true, true_iff]
      exact (isValidTimeLabel_iff _ ht).mp hv
    · exact absurd hn (by simp)
  · rw [hext, if_neg hv]
    refine ⟨?_, fun hn => absurd rfl hn, fun _ => rfl⟩
    simp only [ne_eq, not_true_eq_false, false_iff, not_not]
    intro hc
    exact hv ((isValidTimeLabel_iff _ ht).mpr hc)

/-- C7 witness: the amended rule on the concrete 7-byte tail
59 00 23 31 12 FF 00, whose year byte FF is not BCD yet which is extracted. -/
theorem extractTimeLabel_spec_witness :
    (extractTimeLabel [0x59, 0x00, 0x23, 0x31, 0x12, 0xFF, 0x00]).1 ≠ none ∧
    extractTimeLabel [0x59, 0x00, 0x23, 0x31, 0x12, 0xFF, 0x00] =
      (some ⟨0x59, 0x00, 0x23, 0x31, 0x12, 0xFF, 0x00⟩, []) := by
  have h := extractTimeLabel_spec [0x59, 0x00, 0x23, 0x31, 0x12, 0xFF, 0x00]
    (by decide)
  have hne : (extractTimeLabel [0x59, 0x00, 0x23, 0x31, 0x12, 0xFF, 0x00]).1 ≠
      none := h.1.mpr (by decide)
  refine ⟨hne, ?_⟩
  have := h.2.1 hne
  simpa using this

/-! ## C4: user-data round-trip -/

theorem lor64_of_bit (v : Nat) (h : v &&& 0x40 ≠ 0) : v ||| 0x40 = v := by
  have hv := testBit6_of_land64_ne v h
  apply Nat.eq_of_testBit_eq
  intro i
  rw [Nat.testBit_lor]
  rcases Decidable.em (i = 6) with rfl | hne
  · rw [hv]
    rfl
  · rw [show (0x40 : Nat) = 2 ^ 6 by norm_num,
      Nat.testBit_two_pow_of_ne (fun hh => hne hh.symm), Bool.or_false]

theorem parseTimestamp_bytes (t : TimeLabel) : ParseTimestamp t.bytes = .ok t := by
  unfold ParseTimestamp TimeLabel.bytes
  rw [if_neg (by simp)]
  rfl

theorem extractTimeLabel_append_valid (df : List Nat) (t : TimeLabel)
    (hv : isValidTimeLabel t.bytes = true) :
    extractTimeLabel (df ++ t.bytes) = (some t, df) := by
  have hlen : (df ++ t.bytes).length = df.length + 7 := by simp [TimeLabel.bytes]
  have hd : (df ++ t.bytes).drop ((df ++ t.bytes).length - 7) = t.bytes := by
    rw [hlen, show df.length + 7 - 7 = df.length from by omega, List.drop_left]
  have ht : (df ++ t.bytes).take ((df ++ t.bytes).length - 7) = df := by
    rw [hlen, show df.length + 7 - 7 = df.length from by omega, List.take_left]
  unfold extractTimeLabel
  rw [if_pos (by rw [hlen]; omega), hd, ht, if_pos hv, parseTimestamp_bytes]

theorem extractTimeLabel_stay (df : List Nat)
    (h : df.length < 7 ∨ isValidTimeLabel (df.drop (df.length - 7)) = false) :
    extractTimeLabel df = (none, df) := by
  unfold extractTimeLabel
  rcases h with h | h
  · rw [if_neg (by omega)]
  · by_cases h7 : 7 ≤ df.length
    · rw [if_pos h7, if_neg (by simp [h])]
    · rw [if_neg h7]

/-- The defining equation of `Address.validate` on the V2 constructor. -/
theorem validate_v2_def (sc : List Nat) :
    (Address.v2 sc).validate =
      (if sc.length ≠ 4 then .error "bad station code length"
       else if ¬(∀ b ∈ sc, (b / 16) % 16 ≤ 0x0F ∧ b % 16 ≤ 0x0F) then
         .error "invalid hex"
       else .ok ()) := rfl

theorem validate_v1_ok_iff (ac : List Nat) (sid : Nat) :
    (Address.v1 ac sid).validate = .ok () ↔
      (ac.length = 3 ∧ (∀ b ∈ ac, isValidBCD b) ∧ sid ≠ 0 ∧ sid ≤ 65535) := by
  rw [validate_v1_def]
  split_ifs with hl hbcd hz h1 h2 h3 <;> simp_all [not_not] <;> omega

theorem validate_v2_ok_iff (sc : List Nat) :
    (Address.v2 sc).validate = .ok () ↔ sc.length = 4 := by
  rw [validate_v2_def]
  split_ifs with hl hhex
  · simp_all
  · simp_all
  · exact absurd (fun b _ => ⟨by omega, by omega⟩) hhex

theorem fit_eq_self (n : Nat) (l : List Nat) (h : l.length = n) : fit n l = l := by
  unfold fit
  rw [h, Nat.sub_self, List.take_of_length_le (by omega)]
  simp

theorem newAddressV1_of_validate (ac : List Nat) (sid : Nat)
    (hfit : fit 3 ac = ac) (hv : (Address.v1 ac sid).validate = .ok ()) :
    NewAddressV1 ac sid = .ok (.v1 ac sid) := by
  unfold NewAddressV1
  rw [hfit, hv]

theorem newAddressV2_of_validate (sc : List Nat)
    (hfit : fit 4 sc = sc) (hv : (Address.v2 sc).validate = .ok ()) :
    NewAddressV2 sc = .ok (.v2 sc) := by
  unfold NewAddressV2
  rw [hfit, hv]

theorem address_bytes_parse (a : Address) (hv : a.validate = .ok ())
    (h0 : ∀ ac sid, a = .v1 ac sid → ac.getD 0 0 ≠ 0) :
    a.bytes.length = 5 ∧ ParseAddress a.bytes = .ok a := by
  rcases a with ⟨ac, sid⟩ | ⟨sc⟩
  · obtain ⟨hl, hbcd, hz, hle⟩ := (validate_v1_ok_iff ac sid).mp hv
    have hbytes : (Address.v1 ac sid).bytes =
        ac ++ [(sid / 256) % 256, sid % 256] := by
      show fit 3 ac ++ _ = _
      rw [fit_eq_self 3 ac hl]
    have hlen5 : (Address.v1 ac sid).bytes.length = 5 := by
      rw [hbytes]
      simp [hl]
    refine ⟨hlen5, ?_⟩
    have hget0 : (ac ++ [(sid / 256) % 256, sid % 256]).getD 0 0 = ac.getD 0 0 :=
      List.getD_append _ _ _ _ (by omega)
    unfold ParseAddress
    rw [hbytes, if_neg (by simp [hl]), hget0, if_neg (h0 ac sid rfl)]
    have htake : (ac ++ [(sid / 256) % 256, sid % 256]).take 3 = ac := by
      rw [show (3 : Nat) = ac.length from hl.symm, List.take_left]
    have hg3 : (ac ++ [(sid / 256) % 256, sid % 256]).getD 3 0 =
        (sid / 256) % 256 := by
      rw [List.getD_append_right _ _ _ _ (by omega)]
      simp [hl]
    have hg4 : (ac ++ [(sid / 256) % 256, sid % 256]).getD 4 0 = sid % 256 := by
      rw [List.getD_append_right _ _ _ _ (by omega)]
      simp [hl]
    rw [htake, hg3, hg4, show 256 * (sid / 256 % 256) + sid % 256 = sid from by
      rw [Nat.mod_eq_of_lt (by omega)]
      omega]
    exact newAddressV1_of_validate ac sid (fit_eq_self 3 ac hl) hv
  · have hl : sc.length = 4 := (validate_v2_ok_iff sc).mp hv
    have hbytes : (Address.v2 sc).bytes = 0 :: sc := by
      show 0 :: fit 4 sc = _
      rw [fit_eq_self 4 sc hl]
    have hlen5 : (Address.v2 sc).bytes.length = 5 := by
      rw [hbytes]
      simp [hl]
    refine ⟨hlen5, ?_⟩
    unfold ParseAddress
    rw [hbytes, if_neg (by simp [hl]),
      if_pos (show (0 :: sc).getD 0 0 = 0 from rfl)]
    show NewAddressV2 sc = .ok (.v2 sc)
    exact newAddressV2_of_validate sc (fit_eq_self 4 sc hl) hv

theorem parseAfterControl_ok (ctrl : Control) (offset : Nat) (data : List Nat)
    (addr : Address) (h : ParseAddress ((data.drop offset).take 5) = .ok addr) :
    parseAfterControl ctrl offset data =
      (if data.getD (offset + 5) 0 = 0xFF then
        (if offset + 6 ≥ data.length then .error "parse user AFN failed"
         else .ok (finishUserData ctrl addr (data.getD (offset + 5) 0)
              (some (data.getD (offset + 6) 0)) (data.drop (offset + 6 + 1))))
       else .ok (finishUserData ctrl addr (data.getD (offset + 5) 0) none
              (data.drop (offset + 6)))) := by
  unfold parseAfterControl
  rw [h]

theorem parseAfterControl_eq (ctrl : Control) (addr : Address)
    (pre ab tail : List Nat) (afn : Nat) (hab : ab.length = 5)
    (haddr : ParseAddress ab = .ok addr) (hafn : afn ≠ 0xFF) :
    parseAfterControl ctrl pre.length (pre ++ (ab ++ afn :: tail)) =
      .ok (finishUserData ctrl addr afn none tail) := by
  have hdrop : (pre ++ (ab ++ afn :: tail)).drop pre.length = ab ++ afn :: tail :=
    List.drop_left _ _
  have htake : (ab ++ afn :: tail).take 5 = ab := by
    rw [show (5 : Nat) = ab.length from hab.symm, List.take_left]
  have hg : (pre ++ (ab ++ afn :: tail)).getD (pre.length + 5) 0 = afn := by
    rw [List.getD_append_right _ _ _ _ (by omega),
      show pre.length + 5 - pre.length = 5 from by omega,
      List.getD_append_right _ _ _ _ (by omega)]
    simp [hab]
  have hd6 : (pre ++ (ab ++ afn :: tail)).drop (pre.length + 6) = tail := by
    rw [List.drop_append 6, show (6 : Nat) = ab.length + 1 from by omega,
      List.drop_append 1]
    rfl
  rw [parseAfterControl_ok ctrl pre.length _ addr (by rw [hdrop, htake]; exact haddr),
    hg, if_neg hafn, hd6]

theorem finishUserData_eq (ctrl : Control) (addr : Address) (afn : Nat)
    (df : List Nat) (tp : Option TimeLabel) (tpB : List Nat)
    (hdir : ctrl.DIR = true)
    (hsome : ∀ t, tp = some t →
      tpB = t.bytes ∧ isValidTimeLabel t.bytes = true)
    (hnone : tp = none → tpB = [] ∧ (df.length < 7 ∨
      isValidTimeLabel (df.drop (df.length - 7)) = false)) :
    finishUserData ctrl addr afn none (df ++ tpB) =
      ⟨ctrl, addr, afn, none, df, none, tp⟩ := by
  rcases tp with _ | t
  · obtain ⟨h1, h2⟩ := hnone rfl
    subst h1
    unfold finishUserData
    rw [List.append_nil, extractTimeLabel_stay df h2]
    simp [hdir]
  · obtain ⟨h1, h2⟩ := hsome t rfl
    subst h1
    unfold finishUserData
    rw [extractTimeLabel_append_valid df t h2]
    simp [hdir]

theorem validate_facts (u : UserData) (hval : u.validate = .ok ()) :
    u.address.validate = .ok () ∧ afnIsValid u.afn = true := by
  unfold UserData.validate at hval
  rcases hav : u.address.validate with e | u0
  · rw [hav] at hval
    exact Except.noConfusion hval
  · cases u0
    rw [hav] at hval
    split_ifs at hval with h1 h2 h3
    refine ⟨?_, by simpa [not_not] using h1⟩
    rfl

/-- C4 counterexample: a valid downlink `UserData` carrying a password does
not round-trip: its encoding decodes with `pw = none` and the password byte
absorbed into the data field. -/
theorem userdata_downlink_password_no_roundtrip :
    (UserData.validate ⟨⟨0x00, none⟩, .v1 [0x21, 0x05, 0x25] 1234, 0xC0, none,
        [], some 0x12, none⟩) = .ok () ∧
    (NewUserData (UserData.bytes ⟨⟨0x00, none⟩, .v1 [0x21, 0x05, 0x25] 1234,
        0xC0, none, [], some 0x12, none⟩)).toOption.map
      (fun w => (w.pw, w.dataField)) = some (none, [0x12]) ∧
    some ((none : Option Nat), [0x12]) ≠
      some ((some 0x12 : Option Nat), ([] : List Nat)) := by
  exact ⟨rfl, by decide, by decide⟩

/-- C4 amended: the round trip `NewUserData (u.Bytes()) = u` holds for valid
uplink user data whose control split bit agrees with the presence of the
split-count byte, with no user AFN and no password, an address whose leading
byte is non-zero in the V1 case, and whose optional time label is plausible
when present while the data field does not end in a plausible time label when
absent.  Downlink frames carrying a password never round-trip. -/
theorem userdata_roundtrip_uplink (u : UserData)
    (hval : u.validate = .ok ())
    (hdir : u.control.DIR = true)
    (hdiv : u.control.IsDIV = u.control.divs.isSome)
    (huafn : u.userAFN = none)
    (hpw : u.pw = none)
    (haddr : ∀ ac sid, u.address = .v1 ac sid → ac.getD 0 0 ≠ 0)
    (htpSome : ∀ t, u.tp = some t → isValidTimeLabel t.bytes = true)
    (htpNone : u.tp = none → u.dataField.length < 7 ∨
        isValidTimeLabel (u.dataField.drop (u.dataField.length - 7)) = false) :
    NewUserData u.bytes = .ok u := by
  obtain ⟨⟨v, dv⟩, addr, afn, uafn, df, pw, tp⟩ := u
  obtain rfl : uafn = none := huafn
  obtain rfl : pw = none := hpw
  obtain ⟨haval, hafn⟩ := validate_facts _ hval
  have haval' : addr.validate = .ok () := haval
  have hafn' : afnIsValid afn = true := hafn
  have hdir' : Control.DIR ⟨v, dv⟩ = true := hdir
  have hdiv' : Control.IsDIV ⟨v, dv⟩ = dv.isSome := hdiv
  have haddr' : ∀ ac sid, addr = .v1 ac sid → ac.getD 0 0 ≠ 0 := haddr
  have htpSome' : ∀ t, tp = some t → isValidTimeLabel t.bytes = true := htpSome
  have htpNone' : tp = none → df.length < 7 ∨
      isValidTimeLabel (df.drop (df.length - 7)) = false := htpNone
  clear hval hdir hdiv haddr htpSome htpNone haval hafn
  have hafnne : afn ≠ 0xFF := by
    intro h
    rw [h] at hafn'
    simp [afnIsValid] at hafn'
  obtain ⟨hablen, habparse⟩ := address_bytes_parse addr haval' haddr'
  obtain ⟨tpB, htpB1, htpB2⟩ : ∃ tpB,
      (∀ t, tp = some t → tpB = TimeLabel.bytes t) ∧ (tp = none → tpB = []) := by
    rcases tp with _ | t
    · exact ⟨[], fun t h => Option.noConfusion h, fun _ => rfl⟩
    · exact ⟨t.bytes, fun t' h => by cases h; rfl, fun h => Option.noConfusion h⟩
  have hsome : ∀ t, tp = some t → tpB = t.bytes ∧ isValidTimeLabel t.bytes = true :=
    fun t h => ⟨htpB1 t h, htpSome' t h⟩
  have hnone : tp = none → tpB = [] ∧ (df.length < 7 ∨
      isValidTimeLabel (df.drop (df.length - 7)) = false) :=
    fun h => ⟨htpB2 h, htpNone' h⟩
  rcases dv with _ | d
  · have hbit : (NewControl v).IsDIV = false := hdiv'
    have hdata : UserData.bytes ⟨⟨v, none⟩, addr, afn, none, df, none, tp⟩ =
        v :: (addr.bytes ++ afn :: (df ++ tpB)) := by
      rcases tp with _ | t
      · rw [show tpB = [] from htpB2 rfl]
        simp [UserData.bytes, Control.Bytes]
      · rw [show tpB = t.bytes from htpB1 t rfl]
        simp [UserData.bytes, Control.Bytes]
    rw [hdata]
    unfold NewUserData
    rw [if_neg (by simp [hablen]; omega)]
    rw [if_neg (by
      show ¬(NewControl ((v :: (addr.bytes ++ afn :: (df ++ tpB))).getD 0 0)).IsDIV
        = true
      rw [show (v :: (addr.bytes ++ afn :: (df ++ tpB))).getD 0 0 = v from rfl,
        hbit]
      simp)]
    exact (parseAfterControl_eq (NewControl v) addr [v] addr.bytes (df ++ tpB)
        afn hablen habparse hafnne).trans
      (by
        rw [finishUserData_eq (NewControl v) addr afn df tp tpB hdir' hsome hnone]
        rfl)
  · have hbit : (NewControl v).IsDIV = true := hdiv'
    have hne : v &&& 0x40 ≠ 0 := by
      have h := hbit
      simp [Control.IsDIV, NewControl] at h
      exact h
    have hctrl : (NewControl v).SetDIV d = (⟨v, some d⟩ : Control) := by
      unfold Control.SetDIV NewControl
      rw [lor64_of_bit v hne]
    have hdata : UserData.bytes ⟨⟨v, some d⟩, addr, afn, none, df, none, tp⟩ =
        v :: d :: (addr.bytes ++ afn :: (df ++ tpB)) := by
      rcases tp with _ | t
      · rw [show tpB = [] from htpB2 rfl]
        simp [UserData.bytes, Control.Bytes]
      · rw [show tpB = t.bytes from htpB1 t rfl]
        simp [UserData.bytes, Control.Bytes]
    rw [hdata]
    unfold NewUserData
    rw [if_neg (by simp [hablen])]
    rw [if_pos (by
      show (NewControl ((v :: d :: (addr.bytes ++ afn :: (df ++ tpB))).getD 0 0)).IsDIV
        = true
      rw [show (v :: d :: (addr.bytes ++ afn :: (df ++ tpB))).getD 0 0 = v from rfl,
        hbit])]
    rw [if_neg (by simp [hablen]; omega)]
    have hstep :
        (NewControl ((v :: d :: (addr.bytes ++ afn :: (df ++ tpB))).getD 0 0)).SetDIV
          ((v :: d :: (addr.bytes ++ afn :: (df ++ tpB))).getD 1 0) =
          (⟨v, some d⟩ : Control) := by
      rw [show (v :: d :: (addr.bytes ++ afn :: (df ++ tpB))).getD 0 0 = v from rfl,
        show (v :: d :: (addr.bytes ++ afn :: (df ++ tpB))).getD 1 0 = d from rfl,
        hctrl]
    rw [hstep]
    exact (parseAfterControl_eq (⟨v, some d⟩ : Control) addr [v, d] addr.bytes
        (df ++ tpB) afn hablen habparse hafnne).trans
      (by rw [finishUserData_eq (⟨v, some d⟩ : Control) addr afn df tp tpB hdir'
        hsome hnone])

/-- C4 witness: the amended round trip on a concrete uplink record with a
V1 address and a two-byte data field. -/
theorem userdata_roundtrip_uplink_witness :
    NewUserData (UserData.bytes ⟨⟨0x80, none⟩, .v1 [0x21, 0x05, 0x25] 1234,
        0xC0, none, [0x01, 0x02], none, none⟩) =
      .ok ⟨⟨0x80, none⟩, .v1 [0x21, 0x05, 0x25] 1234, 0xC0, none,
        [0x01, 0x02], none, none⟩ := by
  refine userdata_roundtrip_uplink _ rfl (by decide) (by decide) rfl rfl
    ?_ (fun t h => Option.noConfusion h) (fun _ => Or.inl (by decide))
  intro ac sid h
  injection h with h1 h2
  subst h1
  decide

end SL427
